import Mathlib

/-!
Shallow embedding of the BabelStream kernel backends
(`src/std-indices/STDIndicesStream.cpp` and `src/thrust/ThrustStream.cu`).

The element type `T` (float/double in the source) is modelled by `ℚ`, so the
exact arithmetic of the kernel recurrences can be stated and proved.  A backend
instance owns three arrays `a`, `b`, `c` of length `array_size` together with
the fixed `scalar` (`startScalar` in the source).  Device arrays are modelled
as total functions `ℕ → ℚ`; each kernel writes exactly the indices
`0 ≤ i < array_size` (the source iterates `range(0, array_size)`) and leaves
every other index alone.  Host buffers handed to `read_arrays` are `List ℚ`,
and `read_arrays` returns `none` when a host buffer is shorter than
`array_size` (the out-of-bounds write in the C++ source).
-/

namespace STDIndicesStream

/-- Backend state: the three arrays of length `array_size` plus the fixed
scalar, as owned by `STDIndicesStream<T>`. -/
structure StreamState where
  array_size : ℕ
  a : ℕ → ℚ
  b : ℕ → ℚ
  c : ℕ → ℚ
  scalar : ℚ

/-- `init_arrays(initA, initB, initC)`: `std::fill` of every element of
`a`, `b`, `c` over `[BEGIN(x), END(x))`, i.e. indices `< array_size`. -/
def init_arrays (s : StreamState) (initA initB initC : ℚ) : StreamState :=
  { s with
    a := fun i => if i < s.array_size then initA else s.a i
    b := fun i => if i < s.array_size then initB else s.b i
    c := fun i => if i < s.array_size then initC else s.c i }

/-- `copy()`: `std::copy(BEGIN(a), END(a), BEGIN(c))`, i.e. `c[i] = a[i]`. -/
def copy (s : StreamState) : StreamState :=
  { s with
    c := fun i => if i < s.array_size then s.a i else s.c i }

/-- `mul()`: `std::transform` over the index range writing
`b[i] = scalar * c[i]`. -/
def mul (s : StreamState) : StreamState :=
  { s with
    b := fun i => if i < s.array_size then s.scalar * s.c i else s.b i }

/-- `add()`: `std::transform` over the index range writing
`c[i] = a[i] + b[i]`. -/
def add (s : StreamState) : StreamState :=
  { s with
    c := fun i => if i < s.array_size then s.a i + s.b i else s.c i }

/-- `triad()`: `std::transform` over the index range writing
`a[i] = b[i] + scalar * c[i]`. -/
def triad (s : StreamState) : StreamState :=
  { s with
    a := fun i => if i < s.array_size then s.b i + s.scalar * s.c i else s.a i }

/-- `nstream()`: `std::transform` over the index range writing
`a[i] = a[i] + b[i] + scalar * c[i]`; each index reads the pre-call value
of `a[i]`. -/
def nstream (s : StreamState) : StreamState :=
  { s with
    a := fun i =>
      if i < s.array_size then s.a i + s.b i + s.scalar * s.c i else s.a i }

/-- `dot()`: `std::transform_reduce(exe_policy, BEGIN(a), END(a), BEGIN(b), 0.0)`,
the sequential specification being a left fold of `+` over the products
`a[i] * b[i]` starting from `0.0`. -/
def dot (s : StreamState) : ℚ :=
  (List.range s.array_size).foldl (fun acc i => acc + s.a i * s.b i) 0

/-- `std::copy(BEGIN(x), END(x), h_x.begin())` inside `read_arrays`: writes the
`array_size` elements of a device array into the front of a host buffer,
leaving the rest of the buffer unchanged; `none` when the buffer is too short
(the write would run out of bounds). -/
def copyOut (n : ℕ) (src : ℕ → ℚ) (dst : List ℚ) : Option (List ℚ) :=
  if n ≤ dst.length then some ((List.range n).map src ++ dst.drop n) else none

/-- `read_arrays(h_a, h_b, h_c)`: copies each device array into the
corresponding caller-supplied host buffer. -/
def read_arrays (s : StreamState) (h_a h_b h_c : List ℚ) :
    Option (List ℚ × List ℚ × List ℚ) := do
  let ra ← copyOut s.array_size s.a h_a
  let rb ← copyOut s.array_size s.b h_b
  let rc ← copyOut s.array_size s.c h_c
  pure (ra, rb, rc)

/-- `getDeviceName` in the Parallel STL backend: a fixed sentinel string,
independent of the device id. -/
def getDeviceName (_ : ℤ) : String :=
  "Device name unavailable"

/-- `getDeviceDriver` in the Parallel STL backend: a fixed sentinel string,
independent of the device id. -/
def getDeviceDriver (_ : ℤ) : String :=
  "Device driver unavailable"

end STDIndicesStream

namespace ThrustStream

/-- `ThrustStream<T>::dot`:
`thrust::inner_product(a.begin(), a.end(), b.begin(), T{})`, the sequential
specification being a left fold of `+` over the pairwise products starting
from the value-initialised `T{} = 0`; the iteration stops at `a.end()`. -/
def dot (a b : List ℚ) : ℚ :=
  (List.zipWith (fun x y => x * y) a b).foldl (fun acc p => acc + p) 0

/-- `getDeviceName` in the non-CUDA/HIP (pure host) branch of
`ThrustStream.cu`: a fixed sentinel string, independent of the device id. -/
def getDeviceName (_ : ℤ) : String :=
  "(device name unavailable)"

/-- `getDeviceDriver` in the non-CUDA/HIP (pure host) branch of
`ThrustStream.cu`: a fixed sentinel string, independent of the device id. -/
def getDeviceDriver (_ : ℤ) : String :=
  "(device driver unavailable)"

end ThrustStream

namespace STDIndicesStream

theorem nstream_array_size (s : StreamState) :
    (nstream s).array_size = s.array_size := rfl

theorem nstream_b (s : StreamState) : (nstream s).b = s.b := rfl

theorem nstream_c (s : StreamState) : (nstream s).c = s.c := rfl

theorem nstream_scalar (s : StreamState) : (nstream s).scalar = s.scalar := rfl

theorem nstream_iter_array_size (s : StreamState) (R : ℕ) :
    (nstream^[R] s).array_size = s.array_size := by
  induction R with
  | zero => rfl
  | succ R ih => rw [Function.iterate_succ_apply', nstream_array_size, ih]

theorem nstream_iter_b (s : StreamState) (R : ℕ) :
    (nstream^[R] s).b = s.b := by
  induction R with
  | zero => rfl
  | succ R ih => rw [Function.iterate_succ_apply', nstream_b, ih]

theorem nstream_iter_c (s : StreamState) (R : ℕ) :
    (nstream^[R] s).c = s.c := by
  induction R with
  | zero => rfl
  | succ R ih => rw [Function.iterate_succ_apply', nstream_c, ih]

theorem nstream_iter_scalar (s : StreamState) (R : ℕ) :
    (nstream^[R] s).scalar = s.scalar := by
  induction R with
  | zero => rfl
  | succ R ih => rw [Function.iterate_succ_apply', nstream_scalar, ih]

/-- C1: after `init_arrays(1, 1, 1)` with scalar 2, `R` consecutive `nstream`
calls leave every element of `a` equal to `1 + 3R`; in general one `nstream`
call updates every element to `a[i] + b[i] + scalar * c[i]` from the pre-call
value of `a[i]`. -/
theorem nstream_repetition_recurrence (s : StreamState) (R : ℕ)
    (hN : 0 < s.array_size) (hs : s.scalar = 2) :
    (∀ i < s.array_size,
      (nstream^[R] (init_arrays s 1 1 1)).a i = 1 + 3 * (R : ℚ)) ∧
    (∀ t : StreamState, ∀ i < t.array_size,
      (nstream t).a i = t.a i + t.b i + t.scalar * t.c i) := by
  constructor
  · intro i hi
    induction R with
    | zero =>
      simp [init_arrays, hi]
    | succ R ih =>
      rw [Function.iterate_succ_apply']
      have hsize : (nstream^[R] (init_arrays s 1 1 1)).array_size
          = s.array_size := by
        rw [nstream_iter_array_size]; rfl
      have hb : (nstream^[R] (init_arrays s 1 1 1)).b i = 1 := by
        rw [nstream_iter_b]; simp [init_arrays, hi]
      have hc : (nstream^[R] (init_arrays s 1 1 1)).c i = 1 := by
        rw [nstream_iter_c]; simp [init_arrays, hi]
      have hsc : (nstream^[R] (init_arrays s 1 1 1)).scalar = 2 := by
        rw [nstream_iter_scalar]; exact hs
      have hi' : i < (nstream^[R] (init_arrays s 1 1 1)).array_size := by
        rw [hsize]; exact hi
      simp only [nstream, hi', if_pos]
      rw [ih, hb, hc, hsc]
      push_cast
      ring
  · intro t i hi
    simp [nstream, hi]

/-- C1 witness: a concrete run with `N = 1`, `R = 2` reaches `a[0] = 7`. -/
theorem nstream_repetition_recurrence_witness :
    (nstream^[2]
      (init_arrays ⟨1, fun _ => 0, fun _ => 0, fun _ => 0, 2⟩ 1 1 1)).a 0
      = 7 :=
  ((nstream_repetition_recurrence ⟨1, fun _ => 0, fun _ => 0, fun _ => 0, 2⟩ 2
      (by decide) rfl).1 0 (by decide)).trans (by norm_num)

/-- C2: a single `triad()` call makes every element of `a` equal to
`b[i] + scalar * c[i]`, computed from the pre-call values of `b` and `c`. -/
theorem triad_spec (s : StreamState) :
    ∀ i < s.array_size, (triad s).a i = s.b i + s.scalar * s.c i := by
  intro i hi
  simp [triad, hi]

/-- C2 witness: with `b[0] = 5`, `c[0] = 2`, scalar `3`, triad puts `11`
in `a[0]`. -/
theorem triad_spec_witness :
    (triad ⟨1, fun _ => 0, fun _ => 5, fun _ => 2, 3⟩).a 0 = 11 :=
  (triad_spec ⟨1, fun _ => 0, fun _ => 5, fun _ => 2, 3⟩ 0
    (by decide)).trans (by norm_num)

/-- C5: each kernel writes only its designated output array: `copy` and `add`
leave `a` and `b` unchanged, `mul` leaves `a` and `c` unchanged, `triad` and
`nstream` leave `b` and `c` unchanged (`dot` and `read_arrays` are pure
functions of the state and modify nothing by construction). -/
theorem kernels_frame (s : StreamState) :
    (copy s).a = s.a ∧ (copy s).b = s.b ∧
    (add s).a = s.a ∧ (add s).b = s.b ∧
    (mul s).a = s.a ∧ (mul s).c = s.c ∧
    (triad s).b = s.b ∧ (triad s).c = s.c ∧
    (nstream s).b = s.b ∧ (nstream s).c = s.c :=
  ⟨rfl, rfl, rfl, rfl, rfl, rfl, rfl, rfl, rfl, rfl⟩

/-- C6: `R ≥ 1` consecutive `triad()` calls leave the state exactly as one
call does, and every element of `a` equals `b[i] + scalar * c[i]`
independently of `R`, because triad does not read the prior value of `a`. -/
theorem triad_iterate_const (s : StreamState) (R : ℕ) (hR : 1 ≤ R) :
    triad^[R] s = triad s ∧
    ∀ i < s.array_size, (triad^[R] s).a i = s.b i + s.scalar * s.c i := by
  have hidem : ∀ t : StreamState, triad (triad t) = triad t := by
    intro t
    obtain ⟨N, a, b, c, sc⟩ := t
    simp only [triad]
    congr 1
    funext i
    by_cases h : i < N <;> simp [h]
  obtain ⟨n, rfl⟩ : ∃ n, R = n + 1 := ⟨R - 1, (Nat.succ_pred_eq_of_pos hR).symm⟩
  have hiter : triad^[n + 1] s = triad s := by
    induction n with
    | zero => rfl
    | succ n ih =>
      rw [Function.iterate_succ_apply', ih (by omega), hidem]
  refine ⟨hiter, ?_⟩
  intro i hi
  rw [hiter]
  simp [triad, hi]

/-- C6 witness: two triads with `b[0] = 2`, `c[0] = 3`, scalar `4` yield
`a[0] = 14`, the same as one. -/
theorem triad_iterate_const_witness :
    (triad^[2] (⟨1, fun _ => 0, fun _ => 2, fun _ => 3, 4⟩ : StreamState)).a 0
      = 14 :=
  ((triad_iterate_const ⟨1, fun _ => 0, fun _ => 2, fun _ => 3, 4⟩ 2
    (by decide)).2 0 (by decide)).trans (by norm_num)

/-- C7: `copy()` is idempotent: two consecutive calls produce exactly the
same state as one, since copy writes `c` from `a` and leaves `a` unmodified. -/
theorem copy_idempotent (s : StreamState) : copy (copy s) = copy s := by
  obtain ⟨N, a, b, c, sc⟩ := s
  simp only [copy]
  congr 1
  funext i
  by_cases h : i < N <;> simp [h]

theorem map_range_guard (n : ℕ) (v : ℚ) (g : ℕ → ℚ) :
    (List.range n).map (fun i => if i < n then v else g i)
      = List.replicate n v := by
  apply List.ext_getElem
  · simp
  · intro i h1 h2
    simp only [List.getElem_map, List.getElem_range, List.getElem_replicate]
    rw [if_pos]
    simpa using h2

/-- C3: `init_arrays(x, y, z)` followed immediately by `read_arrays` (buffers
sized exactly `N`) yields host arrays every element of which is `x`, `y`, `z`
respectively. -/
theorem init_read_arrays (s : StreamState) (x y z : ℚ) (h_a h_b h_c : List ℚ)
    (hN : 0 < s.array_size)
    (ha : h_a.length = s.array_size) (hb : h_b.length = s.array_size)
    (hc : h_c.length = s.array_size) :
    read_arrays (init_arrays s x y z) h_a h_b h_c =
      some (List.replicate s.array_size x, List.replicate s.array_size y,
            List.replicate s.array_size z) := by
  simp only [read_arrays, init_arrays, copyOut]
  rw [if_pos (le_of_eq ha.symm), if_pos (le_of_eq hb.symm),
    if_pos (le_of_eq hc.symm)]
  rw [map_range_guard, map_range_guard, map_range_guard]
  have da : h_a.drop s.array_size = [] := by rw [← ha, List.drop_length]
  have db : h_b.drop s.array_size = [] := by rw [← hb, List.drop_length]
  have dc : h_c.drop s.array_size = [] := by rw [← hc, List.drop_length]
  rw [da, db, dc]
  simp

/-- C3 witness: `N = 1`, constants `3, 4, 5`, one-element host buffers. -/
theorem init_read_arrays_witness :
    read_arrays (init_arrays ⟨1, fun _ => 0, fun _ => 0, fun _ => 0, 0⟩ 3 4 5)
      [0] [0] [0] = some ([3], [4], [5]) :=
  (init_read_arrays ⟨1, fun _ => 0, fun _ => 0, fun _ => 0, 0⟩ 3 4 5
    [0] [0] [0] (by decide) rfl rfl rfl).trans (by decide)

theorem foldl_add_map (f : ℕ → ℚ) (l : List ℕ) (x : ℚ) :
    l.foldl (fun acc i => acc + f i) x = x + (l.map f).sum := by
  induction l generalizing x with
  | nil => simp
  | cons j l ih => simp [ih, add_assoc]

theorem sum_map_range (f : ℕ → ℚ) (n : ℕ) :
    ((List.range n).map f).sum = ∑ i in Finset.range n, f i := by
  induction n with
  | zero => simp
  | succ n ih => rw [List.range_succ]; simp [ih, Finset.sum_range_succ]

theorem dot_sum_formula (s : StreamState) :
    dot s = ∑ i in Finset.range s.array_size, s.a i * s.b i := by
  rw [dot, foldl_add_map, sum_map_range, zero_add]

/-- C4: `dot()` returns the sum over all indices of `a[i] * b[i]`; in the
embedding it is a pure function `StreamState → ℚ` and stores nothing back
into the arrays. -/
theorem dot_spec (s : StreamState) :
    dot s = ∑ i in Finset.range s.array_size, s.a i * s.b i :=
  dot_sum_formula s

/-- C8: for pure-host backends, `getDeviceName` and `getDeviceDriver` return
fixed sentinel strings containing "unavailable", independent of the device
id, in both the Parallel STL backend and the host branch of the Thrust
backend. -/
theorem device_strings_unavailable (i j : ℤ) :
    getDeviceName i = getDeviceName j ∧
    getDeviceDriver i = getDeviceDriver j ∧
    (∃ p q : String, getDeviceName i = p ++ "unavailable" ++ q) ∧
    (∃ p q : String, getDeviceDriver i = p ++ "unavailable" ++ q) ∧
    ThrustStream.getDeviceName i = ThrustStream.getDeviceName j ∧
    ThrustStream.getDeviceDriver i = ThrustStream.getDeviceDriver j ∧
    (∃ p q : String, ThrustStream.getDeviceName i = p ++ "unavailable" ++ q) ∧
    (∃ p q : String,
      ThrustStream.getDeviceDriver i = p ++ "unavailable" ++ q) :=
  ⟨rfl, rfl,
    ⟨"Device name ", "", rfl⟩,
    ⟨"Device driver ", "", rfl⟩,
    rfl, rfl,
    ⟨"(device name ", ")", rfl⟩,
    ⟨"(device driver ", ")", rfl⟩⟩

/-- C9: `read_arrays` succeeds exactly when every host buffer is at least as
long as `array_size`; on success each output buffer carries the first
`array_size` backend elements followed by the untouched tail of the host
buffer (exactly `array_size` elements read and written per array). -/
theorem read_arrays_bounds (s : StreamState) (h_a h_b h_c : List ℚ) :
    ((read_arrays s h_a h_b h_c).isSome ↔
      (s.array_size ≤ h_a.length ∧ s.array_size ≤ h_b.length ∧
       s.array_size ≤ h_c.length)) ∧
    (s.array_size ≤ h_a.length → s.array_size ≤ h_b.length →
      s.array_size ≤ h_c.length →
      read_arrays s h_a h_b h_c =
        some ((List.range s.array_size).map s.a ++ h_a.drop s.array_size,
              (List.range s.array_size).map s.b ++ h_b.drop s.array_size,
              (List.range s.array_size).map s.c ++ h_c.drop s.array_size)) := by
  constructor
  · by_cases ha : s.array_size ≤ h_a.length <;>
      by_cases hb : s.array_size ≤ h_b.length <;>
        by_cases hc : s.array_size ≤ h_c.length <;>
          simp [read_arrays, copyOut, ha, hb, hc]
  · intro ha hb hc
    simp [read_arrays, copyOut, ha, hb, hc]

/-- C9 witness: with `N = 1` and host buffers of lengths `2, 1, 1`,
`read_arrays` writes exactly the first element of each buffer and keeps
the tail. -/
theorem read_arrays_bounds_witness :
    read_arrays ⟨1, fun _ => 4, fun _ => 5, fun _ => 6, 0⟩ [0, 9] [0] [0] =
      some ([4, 9], [5], [6]) :=
  ((read_arrays_bounds ⟨1, fun _ => 4, fun _ => 5, fun _ => 6, 0⟩
    [0, 9] [0] [0]).2 (by decide) (by decide) (by decide)).trans (by decide)

theorem zipWith_mul_map_range (ta tb : List ℚ) (h : ta.length = tb.length) :
    List.zipWith (fun x y => x * y) ta tb
      = (List.range ta.length).map (fun i => ta.getD i 0 * tb.getD i 0) := by
  induction ta generalizing tb with
  | nil => simp
  | cons x xs ih =>
    cases tb with
    | nil => simp at h
    | cons y ys =>
      simp only [List.zipWith_cons_cons, List.length_cons,
        List.range_succ_eq_map, List.map_cons, List.map_map]
      rw [ih ys (by simpa using h)]
      simp [Function.comp]

/-- C10: the STD-indices `dot` (`transform_reduce` from `0.0`) and the Thrust
`dot` (`inner_product` from `T\x7b\x7d`) compute the same function: for matching
arrays of equal length `N` both return the sum over `i` of `a[i] * b[i]`. -/
theorem dot_refinement (s : StreamState) (ta tb : List ℚ) (N : ℕ)
    (hsN : s.array_size = N) (haN : ta.length = N) (hbN : tb.length = N)
    (hsa : ∀ i < N, s.a i = ta.getD i 0) (hsb : ∀ i < N, s.b i = tb.getD i 0) :
    dot s = ThrustStream.dot ta tb ∧
    ThrustStream.dot ta tb
      = ∑ i in Finset.range N, ta.getD i 0 * tb.getD i 0 := by
  have hthrust : ThrustStream.dot ta tb
      = ∑ i in Finset.range N, ta.getD i 0 * tb.getD i 0 := by
    rw [ThrustStream.dot, zipWith_mul_map_range ta tb (haN.trans hbN.symm)]
    have := foldl_add_map (fun i => ta.getD i 0 * tb.getD i 0)
      (List.range ta.length) 0
    simp only [List.foldl_map] at this ⊢
    rw [this, sum_map_range, zero_add, haN]
  refine ⟨?_, hthrust⟩
  rw [dot_sum_formula, hthrust, hsN]
  exact Finset.sum_congr rfl fun i hi => by
    rw [hsa i (Finset.mem_range.mp hi), hsb i (Finset.mem_range.mp hi)]

/-- C10 witness: `a = [1, 2]`, `b = [3, 4]` give the same dot product `11`
through both backends. -/
theorem dot_refinement_witness :
    dot ⟨2, fun i => if i = 0 then 1 else 2, fun i => if i = 0 then 3 else 4,
        fun _ => 0, 0⟩ = ThrustStream.dot [1, 2] [3, 4] :=
  (dot_refinement
    ⟨2, fun i => if i = 0 then 1 else 2, fun i => if i = 0 then 3 else 4,
      fun _ => 0, 0⟩ [1, 2] [3, 4] 2 rfl (by decide) (by decide)
    (by decide) (by decide)).1

end STDIndicesStream
